import Mathlib

/-!
# Verification of the rental-tracking core of `TelegramBot.py`

A shallow embedding of the data model and operations of the rental/category
tracker: the time-format codec (`validate_datetime_format`, the inline
`parse_dt` helpers), the store operations reachable from `handle_text`
(`add_category`, `add_rental`), `undo_rental`, `delete_category`,
`show_category_stats`, the load-time legacy migration in `load_data`, and the
notification tick `check_rental_end_times`.

Numbers entered as profit/expense are modelled as rationals, while the
source computes with IEEE-754 doubles: every theorem below either performs
no arithmetic on these fields, or states an equality between two expressions
built by the identical sequence of additions in the identical order, which
therefore also holds value-for-value for doubles.  (Exact cancellation such
as `(x + a) - a = x`, which holds for rationals but not for doubles, is
never used; in particular the invariant claim is restricted to the
addition-only operations.)  Instants are modelled as seconds counted from
2000-01-01 00:00 (Python `datetime` with the two-digit year interpreted as
`2000 + yy`, as the source does).  Python's `int()` applied to the fields of
the time format is modelled for unsigned ASCII digit strings surrounded by
optional ASCII whitespace; signs, underscore grouping and non-ASCII digits
are outside the model's scope, and the string claims are correspondingly
restricted to ASCII inputs (Python's `\d` and `int()` also accept Unicode
digits).
-/

set_option maxHeartbeats 1600000

namespace TelegramBot

/-- Gregorian leap-year rule, as used by Python's `datetime`. -/
def isLeap (y : Nat) : Bool :=
  y % 4 == 0 && (y % 100 != 0 || y % 400 == 0)

/-- Number of days of month `m` (1-12) in year `y`, per Python's `datetime`. -/
def daysInMonth (y m : Nat) : Nat :=
  if m == 2 then (if isLeap y then 29 else 28)
  else if m == 4 || m == 6 || m == 9 || m == 11 then 30
  else 31

/-- The ranges accepted by the `datetime(year, month, day, hour, minute)`
constructor: constructing the object raises `ValueError` outside them. -/
def dtValid (y mo d h mi : Nat) : Bool :=
  1 ≤ mo && mo ≤ 12 && 1 ≤ d && d ≤ daysInMonth y mo && h ≤ 23 && mi ≤ 59 &&
  1 ≤ y && y ≤ 9999

/-- Days from 2000-01-01 to `y`-01-01 (for `y ≥ 2000`). -/
def daysBeforeYear (y : Nat) : Nat :=
  (List.range (y - 2000)).foldl
    (fun a i => a + (if isLeap (2000 + i) then 366 else 365)) 0

/-- Days from `y`-01-01 to `y`-`m`-01. -/
def daysBeforeMonth (y m : Nat) : Nat :=
  (List.range (m - 1)).foldl (fun a i => a + daysInMonth y (i + 1)) 0

/-- The instant `y-mo-d h:mi` as seconds counted from 2000-01-01 00:00.
This is the denotation of a `datetime` value; `datetime` comparison and
`timedelta` addition in the source correspond to `≤`/`<` and `+` here. -/
def toSeconds (y mo d h mi : Nat) : Nat :=
  (((daysBeforeYear y + daysBeforeMonth y mo + (d - 1)) * 24 + h) * 60 + mi) * 60

/-- Python `str.split(sep)` for a one-character separator, on char lists. -/
def splitOnChar (sep : Char) : List Char → List (List Char)
  | [] => [[]]
  | c :: cs =>
    let r := splitOnChar sep cs
    if c == sep then [] :: r else (c :: r.headD []) :: r.tail

/-- The ASCII whitespace characters stripped by Python `int()`. -/
def isPySpace (c : Char) : Bool :=
  c == ' ' || c == '\t' || c == '\n' || c == '\r' || c == '\x0B' || c == '\x0C'

/-- Python `str.strip()` restricted to ASCII whitespace. -/
def stripWs (cs : List Char) : List Char :=
  ((cs.dropWhile isPySpace).reverse.dropWhile isPySpace).reverse

/-- Python `int(s)` on an unsigned ASCII digit string surrounded by optional
ASCII whitespace (which `int()` strips): `some` value when what remains is a
nonempty all-digit string, `none` (a `ValueError`) otherwise.  Signs,
underscore grouping and non-ASCII digits are outside the model's scope; the
program neither produces nor (within the ASCII-restricted claims) accepts
them. -/
def toIntOpt (cs : List Char) : Option Nat :=
  let ds := stripWs cs
  if !ds.isEmpty && ds.all Char.isDigit then
    some (ds.foldl (fun n c => 10 * n + (c.toNat - 48)) 0)
  else none

/-- The shared field-extraction code of the source
(`time_part, date_part = dt_str.split('-')`;
`day, month, year = map(int, date_part.split('.'))`;
`hour, minute = map(int, time_part.split(':'))`), returning
`(day, month, year, hour, minute)`; `none` models the `ValueError` thrown by
tuple unpacking of the wrong arity or by `int()` on a non-digit field. -/
def parseFields (cs : List Char) : Option (Nat × Nat × Nat × Nat × Nat) :=
  match splitOnChar '-' cs with
  | [timePart, datePart] =>
    match splitOnChar '.' datePart with
    | [ds, ms, ys] =>
      match splitOnChar ':' timePart with
      | [hs, mis] =>
        match toIntOpt ds, toIntOpt ms, toIntOpt ys, toIntOpt hs, toIntOpt mis with
        | some d, some m, some y, some h, some mi => some (d, m, y, h, mi)
        | _, _, _, _, _ => none
      | _ => none
    | _ => none
  | _ => none

/-- The `parse_dt` helper of `handle_text` (also the inline parse in
`validate_datetime_format` and `check_rental_end_times`): split the text,
convert the fields with `int`, and build `datetime(2000 + year, month, day,
hour, minute)`.  `none` models a raised `ValueError`. -/
def parse_dt (s : String) : Option Nat :=
  match parseFields s.data with
  | some (d, m, y, h, mi) =>
    if dtValid (2000 + y) m d h mi then some (toSeconds (2000 + y) m d h mi)
    else none
  | none => none

/-- The character classes of `\d{2}:\d{2}-\d{2}\.\d{2}\.\d{2}` position by
position (`\d` modelled for ASCII digits, per the ASCII-restricted claims). -/
def shapeDigits (h1 h2 c1 m1 m2 c2 d1 d2 c3 n1 n2 c4 y1 y2 : Char) : Bool :=
  h1.isDigit && h2.isDigit && c1 == ':' && m1.isDigit && m2.isDigit &&
  c2 == '-' && d1.isDigit && d2.isDigit && c3 == '.' && n1.isDigit &&
  n2.isDigit && c4 == '.' && y1.isDigit && y2.isDigit

/-- The regex `^\d{2}:\d{2}-\d{2}\.\d{2}\.\d{2}$` of
`validate_datetime_format` under Python `re` semantics: `$` matches at the
end of the string and also just before one newline that ends the string, so
the pattern also accepts the shape followed by a single trailing `'\n'`. -/
def matchShape : List Char → Bool
  | [h1, h2, c1, m1, m2, c2, d1, d2, c3, n1, n2, c4, y1, y2] =>
    shapeDigits h1 h2 c1 m1 m2 c2 d1 d2 c3 n1 n2 c4 y1 y2
  | [h1, h2, c1, m1, m2, c2, d1, d2, c3, n1, n2, c4, y1, y2, nl] =>
    shapeDigits h1 h2 c1 m1 m2 c2 d1 d2 c3 n1 n2 c4 y1 y2 && nl == '\n'
  | _ => false

/-- `validate_datetime_format(dt_str)`: the regex match followed by the
`try` block that splits the string and constructs the `datetime` (whose
constructor enforces calendar validity); `False` on a raised exception. -/
def validate_datetime_format (s : String) : Bool :=
  matchShape s.data && (parse_dt s).isSome

example : validate_datetime_format "14:06-11.07.25" = true := by decide
example : validate_datetime_format "25:00-01.01.25" = false := by decide
example : validate_datetime_format "14:06-32.01.25" = false := by decide
example : validate_datetime_format "1406-11.07.25" = false := by decide
example : validate_datetime_format "29:02-29.02.24" = false := by decide
example : validate_datetime_format "10:30-29.02.24" = true := by decide
example : validate_datetime_format "10:30-29.02.25" = false := by decide

/-! ## Data model

The persisted JSON document: `categories` maps a name to its running totals,
`rentals` is the append-ordered list of transactions.  The insertion-ordered
Python dict is modelled as an association list (new keys are appended). -/

/-- A category's running totals (`{"profit": .., "expense": .., "income": ..}`). -/
structure Category where
  profit : ℚ
  expense : ℚ
  income : ℚ
  deriving DecidableEq, Repr

/-- The zero-valued record `{"profit": 0, "expense": 0, "income": 0}`. -/
def zeroCat : Category := ⟨0, 0, 0⟩

/-- One rental entry, exactly the dict appended by `handle_text`. -/
structure Rental where
  category : String
  profit : ℚ
  expense : ℚ
  income : ℚ
  start_time : String
  end_time : String
  notified : Bool
  deriving DecidableEq, Repr

/-- In-memory store state: the parsed content of `financial_data.json`. -/
structure Data where
  categories : List (String × Category)
  rentals : List Rental
  deriving DecidableEq, Repr

/-- The empty store `{'categories': {}, 'rentals': []}`. -/
def emptyData : Data := ⟨[], []⟩

/-- `category in data['categories']` — key membership in the dict. -/
def hasCat (d : Data) (name : String) : Bool :=
  (List.lookup name d.categories).isSome

/-- `data['categories'][name] op= v` — update the value stored under a key,
leaving the dict unchanged when the key is absent (position preserved). -/
def updateCat (m : List (String × Category)) (name : String)
    (f : Category → Category) : List (String × Category) :=
  m.map (fun p => if p.1 = name then (p.1, f p.2) else p)

/-- The error taxonomy of the user-facing validation failures. -/
inductive BotError where
  | duplicate
  | notFound
  | indexErr
  | formatStart
  | formatEnd
  | order
  | parseErr
  deriving DecidableEq, Repr

deriving instance DecidableEq for Except

/-! ## RentalLedger operations -/

/-- The `add_category` branch of `handle_text` (source lines 392-401): insert
a zero-valued category unless the name already exists. -/
def add_category (d : Data) (text : String) : Except BotError Data :=
  if hasCat d text then .error .duplicate
  else .ok ⟨d.categories ++ [(text, zeroCat)], d.rentals⟩

/-- Build the rental dict appended by `handle_text` (source lines 450-458). -/
def mkRental (category : String) (profit expense : ℚ)
    (start_time end_time : String) : Rental :=
  ⟨category, profit, expense, profit - expense, start_time, end_time, false⟩

/-- The `add_rental` branch of `handle_text` (source lines 409-475), after the
message has been split into four parts and profit/expense parsed as numbers:
validate both time texts, parse them, require `end > start`, then append the
rental and add its fields into the category's totals **when the category
exists** — the source guards only the totals update, not the append. -/
def add_rental (d : Data) (category : String) (profit expense : ℚ)
    (start_time end_time : String) : Except BotError Data :=
  if ¬ validate_datetime_format start_time then .error .formatStart
  else if ¬ validate_datetime_format end_time then .error .formatEnd
  else
    match parse_dt start_time, parse_dt end_time with
    | some start_dt, some end_dt =>
      if end_dt ≤ start_dt then .error .order
      else
        let r := mkRental category profit expense start_time end_time
        let cats :=
          if hasCat d category then
            updateCat d.categories category
              (fun c => ⟨c.profit + profit, c.expense + expense,
                         c.income + (profit - expense)⟩)
          else d.categories
        .ok ⟨cats, d.rentals ++ [r]⟩
    | _, _ => .error .parseErr

/-- Python list indexing: index `i` of a list of length `n` resolves to
position `i` for `0 ≤ i < n`, to `n + i` for `-n ≤ i < 0`, and raises
`IndexError` otherwise. -/
def pyIndex (n : Nat) (i : Int) : Option Nat :=
  if 0 ≤ i ∧ i < (n : Int) then some i.toNat
  else if -(n : Int) ≤ i ∧ i < 0 then some (i + (n : Int)).toNat
  else none

/-- Placeholder rental for the total list access (never used: the access is
guarded by a successful bounds check). -/
def dfltRental : Rental := ⟨"", 0, 0, 0, "", "", false⟩

/-- `undo_rental` (source lines 305-332): look up `data['rentals'][rental_id]`
(raising `IndexError` when out of bounds, with no mutation), subtract its
fields from its category's totals when the category still exists, delete the
entry, persist. -/
def undo_rental (d : Data) (rental_id : Int) : Except BotError Data :=
  match pyIndex d.rentals.length rental_id with
  | none => .error .indexErr
  | some j =>
    let r := d.rentals.getD j dfltRental
    let cats :=
      if hasCat d r.category then
        updateCat d.categories r.category
          (fun c => ⟨c.profit - r.profit, c.expense - r.expense,
                     c.income - r.income⟩)
      else d.categories
    .ok ⟨cats, d.rentals.eraseIdx j⟩

/-- `delete_category` (source lines 334-347): when the name is a key, remove
it and every rental referencing it and persist; otherwise report "category
not found" and change nothing. -/
def delete_category (d : Data) (category : String) : Except BotError Data :=
  if hasCat d category then
    .ok ⟨d.categories.filter (fun p => !(p.1 == category)),
         d.rentals.filter (fun r => !(r.category == category))⟩
  else .error .notFound

/-- The projection computed by `show_category_stats` (source lines 248-268):
totals summed over the rentals currently recorded under the name, income as
their difference, and the displayed tail `rentals[-5:]`. -/
structure Stats where
  total_profit : ℚ
  total_expense : ℚ
  total_income : ℚ
  recent : List Rental
  deriving DecidableEq, Repr

/-- `show_category_stats` (source lines 248-268), as a pure read. -/
def show_category_stats (d : Data) (category : String) : Stats :=
  let rentals := d.rentals.filter (fun r => r.category == category)
  { total_profit := (rentals.map Rental.profit).sum
    total_expense := (rentals.map Rental.expense).sum
    total_income := (rentals.map Rental.profit).sum - (rentals.map Rental.expense).sum
    recent := rentals.drop (rentals.length - 5) }

/-! ## NotificationScheduler -/

/-- The per-rental test of `check_rental_end_times`: not yet notified and
`end_dt <= now < end_dt + timedelta(minutes=1)`; a rental whose `end_time`
fails to parse raises inside its guard and is skipped. -/
def notifyNow (r : Rental) (now : Nat) : Bool :=
  !r.notified &&
    match parse_dt r.end_time with
    | some e => decide (e ≤ now ∧ now < e + 60)
    | none => false

/-- The loop body of `check_rental_end_times` over the rental list, carrying
the absolute position `i` of the head; emits `(position, category)` for each
notification sent, flips `notified` on the matched rentals. -/
def tickRentals (now : Nat) (i : Nat) :
    List Rental → List Rental × List (Nat × String)
  | [] => ([], [])
  | r :: rs =>
    let (rs', ms) := tickRentals now (i + 1) rs
    if r.notified then (r :: rs', ms)
    else
      match parse_dt r.end_time with
      | some e =>
        if e ≤ now ∧ now < e + 60 then
          ({ r with notified := true } :: rs', (i, r.category) :: ms)
        else (r :: rs', ms)
      | none => (r :: rs', ms)

/-- One scheduler tick `check_rental_end_times` (source lines 77-107) run at
instant `now`: the updated store and the notifications sent (each names the
rental's category; the index records which rental it was sent for). -/
def check_rental_end_times (d : Data) (now : Nat) :
    Data × List (Nat × String) :=
  let (rs, ms) := tickRentals now 0 d.rentals
  (⟨d.categories, rs⟩, ms)

/-- A run of scheduler ticks at the given instants, keeping only the store. -/
def runTicks (d : Data) (nows : List Nat) : Data :=
  nows.foldl (fun s n => (check_rental_end_times s n).1) d

/-! ## Store load and legacy migration -/

/-- The two on-disk shapes of the `categories` field: the legacy flat list of
names, and the current map of records. -/
inductive CatsField where
  | legacy (names : List String)
  | table (m : List (String × Category))
  deriving DecidableEq, Repr

/-- A parsed persisted document. -/
structure Doc where
  cats : CatsField
  rentals : List Rental
  deriving DecidableEq, Repr

/-- What `load_data` finds on disk: no file, an empty file, unreadable
content, or a parsed document. -/
inductive LoadInput where
  | missing
  | empty
  | corrupt
  | doc (d : Doc)
  deriving DecidableEq, Repr

/-- Python dict assignment `m[k] = v`: replace the binding in place when the
key exists (a dict never holds a key twice), else append it. -/
def insertPair : List (String × Category) → String → Category →
    List (String × Category)
  | [], k, v => [(k, v)]
  | p :: m, k, v => if p.1 = k then (k, v) :: m else p :: insertPair m k v

/-- The dict comprehension
`{cat: {"profit": 0, "expense": 0, "income": 0} for cat in data['categories']}`. -/
def migrateCats (names : List String) : List (String × Category) :=
  names.foldl (fun m n => insertPair m n zeroCat) []

/-- The document written back by the migration branch of `load_data`. -/
def migrateDoc (names : List String) (rs : List Rental) : Doc :=
  ⟨.table (migrateCats names), rs⟩

/-- `load_data` (source lines 26-51): missing/empty/unreadable files are
replaced by the saved empty state; a document whose `categories` is a legacy
list is migrated to the map form and saved immediately; a document already in
map form is returned as is.  The second component is the document written
back to disk during the load (`none` when nothing was saved). -/
def load_data (input : LoadInput) : Data × Option Doc :=
  match input with
  | .missing => (emptyData, some ⟨.table [], []⟩)
  | .empty => (emptyData, some ⟨.table [], []⟩)
  | .corrupt => (emptyData, some ⟨.table [], []⟩)
  | .doc ⟨.legacy names, rs⟩ =>
    (⟨migrateCats names, rs⟩, some (migrateDoc names rs))
  | .doc ⟨.table m, rs⟩ => (⟨m, rs⟩, none)

/-! ## The ledger step relation

Reachable states under the four mutating operations, starting from the empty
store.  A failing operation leaves the state unchanged (every validation
error is raised before any mutation). -/

/-- One ledger operation request. -/
inductive Op where
  | addCategory (name : String)
  | addRental (category : String) (profit expense : ℚ)
      (start_time end_time : String)
  | undoRental (i : Int)
  | deleteCategory (name : String)
  deriving DecidableEq, Repr

/-- Apply one operation; on error the store is untouched. -/
def applyOp (d : Data) : Op → Data
  | .addCategory n => (add_category d n).toOption.getD d
  | .addRental c p e s t => (add_rental d c p e s t).toOption.getD d
  | .undoRental i => (undo_rental d i).toOption.getD d
  | .deleteCategory n => (delete_category d n).toOption.getD d

/-- Run a finite sequence of operations from the empty store. -/
def runOps (ops : List Op) : Data :=
  ops.foldl applyOp emptyData

/-- Sum of field `f` over the rentals recorded under category `name`. -/
def sumBy (f : Rental → ℚ) (rs : List Rental) (name : String) : ℚ :=
  ((rs.filter (fun r => r.category == name)).map f).sum

/-- Fixture: a store with one category "A" holding one rental. -/
def fixA : Data :=
  ⟨[("A", ⟨1, 0, 1⟩)], [mkRental "A" 1 0 "14:06-11.07.25" "18:00-11.07.25"]⟩

/-- Fixture: a store with one category "B" holding one rental. -/
def fixB : Data :=
  ⟨[("B", ⟨3, 1, 2⟩)], [mkRental "B" 3 1 "10:00-01.01.24" "11:00-01.01.24"]⟩

/-- Fixture: a store holding one already-notified rental. -/
def fixC : Data :=
  ⟨[("Cam", ⟨5, 2, 3⟩)],
   [⟨"Cam", 5, 2, 3, "10:00-01.01.24", "11:00-01.01.24", true⟩]⟩

/-- Guard on one operation: an addRental request names an existing category,
and undoRental is excluded.  (The source stores profit/expense/income as
IEEE-754 doubles; undo subtracts from the running totals, and float
subtraction does not cancel exactly — e.g. `(0.1 + 0.2) - 0.1 ≠ 0.2` — so
the exact-equality invariant only survives the addition-only operations,
where both sides of the equality are built by the identical in-order chain
of additions and therefore agree for doubles just as for rationals.) -/
def SafeOp (d : Data) : Op → Prop
  | .addRental c _ _ _ _ => hasCat d c = true
  | .undoRental _ => False
  | _ => True

/-- States reachable from the empty store by sequences of addCategory,
addRental and deleteCategory in which every addRental names a then-existing
category (no undoRental). -/
inductive ReachableSafe : Data → Prop
  | init : ReachableSafe emptyData
  | step (d : Data) (op : Op) : ReachableSafe d → SafeOp d op →
      ReachableSafe (applyOp d op)

/-- The C1 invariant: every Category record's profit/expense/income equal
the sums of the corresponding fields over the rentals referencing it. -/
def CatTotalsOK (d : Data) : Prop :=
  ∀ p ∈ d.categories,
    p.2.profit = sumBy Rental.profit d.rentals p.1 ∧
    p.2.expense = sumBy Rental.expense d.rentals p.1 ∧
    p.2.income = sumBy Rental.income d.rentals p.1

/-- Auxiliary invariant: every rental's category is a key of the map. -/
def NoOrphan (d : Data) : Prop :=
  ∀ r ∈ d.rentals, hasCat d r.category = true

/-- The number denoted by a two-digit field. -/
def digitVal2 (a b : Char) : Nat :=
  10 * (a.toNat - 48) + (b.toNat - 48)

/-- The specification of a valid time text, transcribed from the amended
claim: the exact shape `HH:MM-DD.MM.YY` (two digits in each field, literal
separators `:`, `-`, `.`), or that shape followed by one trailing newline
(Python's `$` matches before a final newline and `int()` strips it), whose
numeric fields form a calendar-valid date and 24-hour time when the
two-digit year is read as `2000 + YY`. -/
def specValidDT (s : String) : Prop :=
  ∃ h1 h2 m1 m2 d1 d2 n1 n2 y1 y2 : Char,
    (s.data = [h1, h2, ':', m1, m2, '-', d1, d2, '.', n1, n2, '.', y1, y2] ∨
     s.data = [h1, h2, ':', m1, m2, '-', d1, d2, '.', n1, n2, '.', y1, y2,
               '\n']) ∧
    h1.isDigit = true ∧ h2.isDigit = true ∧ m1.isDigit = true ∧
    m2.isDigit = true ∧ d1.isDigit = true ∧ d2.isDigit = true ∧
    n1.isDigit = true ∧ n2.isDigit = true ∧ y1.isDigit = true ∧
    y2.isDigit = true ∧
    digitVal2 h1 h2 < 24 ∧ digitVal2 m1 m2 < 60 ∧
    1 ≤ digitVal2 n1 n2 ∧ digitVal2 n1 n2 ≤ 12 ∧
    1 ≤ digitVal2 d1 d2 ∧
    digitVal2 d1 d2 ≤ daysInMonth (2000 + digitVal2 y1 y2) (digitVal2 n1 n2)

/-- ASCII-only strings: the scope of the string-level claims (outside it,
Python's `\d` and `int()` additionally accept non-ASCII Unicode digits,
which the model does not cover). -/
def AsciiOnly (s : String) : Prop :=
  ∀ c ∈ s.data, c.toNat ≤ 127

instance decAsciiOnly (s : String) : Decidable (AsciiOnly s) :=
  List.decidableBAll _ s.data

/-! ## Association-list and sum lemmas -/

theorem lookup_cons (k a : String) (b : Category)
    (m : List (String × Category)) :
    List.lookup k ((a, b) :: m) = if k = a then some b else List.lookup k m := by
  by_cases h : k = a
  · subst h; simp [List.lookup]
  · have hb : (k == a) = false := beq_eq_false_iff_ne.mpr h
    simp [List.lookup, hb, h]

theorem lookup_append_some {m l₂ : List (String × Category)} {k : String}
    {v : Category} (h : List.lookup k m = some v) :
    List.lookup k (m ++ l₂) = some v := by
  induction m with
  | nil => simp at h
  | cons p m ih =>
    rcases p with ⟨a, b⟩
    rw [lookup_cons] at h
    rw [List.cons_append, lookup_cons]
    by_cases hk : k = a
    · rwa [if_pos hk] at h ⊢
    · rw [if_neg hk] at h ⊢
      exact ih h

theorem lookup_append_none {m l₂ : List (String × Category)} {k : String}
    (h : List.lookup k m = none) :
    List.lookup k (m ++ l₂) = List.lookup k l₂ := by
  induction m with
  | nil => simp
  | cons p m ih =>
    rcases p with ⟨a, b⟩
    rw [lookup_cons] at h
    rw [List.cons_append, lookup_cons]
    by_cases hk : k = a
    · rw [if_pos hk] at h; cases h
    · rw [if_neg hk] at h ⊢
      exact ih h

theorem lookup_updateCat (m : List (String × Category)) (name : String)
    (f : Category → Category) (k : String) :
    List.lookup k (updateCat m name f)
      = if k = name then (List.lookup k m).map f else List.lookup k m := by
  induction m with
  | nil => simp [updateCat]
  | cons p m ih =>
    rcases p with ⟨a, b⟩
    have hm : updateCat ((a, b) :: m) name f
        = (if a = name then (a, f b) else (a, b)) :: updateCat m name f := rfl
    rw [hm]
    by_cases ha : a = name
    · subst ha
      rw [if_pos rfl]
      by_cases hk : k = a
      · subst hk
        simp [lookup_cons]
      · simp [lookup_cons, hk, ih]
    · rw [if_neg ha]
      by_cases hk : k = a
      · subst hk
        simp [lookup_cons, ha]
      · simp [lookup_cons, hk, ih]

theorem lookup_filter_ne (m : List (String × Category)) (name k : String)
    (h : k ≠ name) :
    List.lookup k (m.filter (fun p => !(p.1 == name))) = List.lookup k m := by
  induction m with
  | nil => simp
  | cons p m ih =>
    rcases p with ⟨a, b⟩
    rw [List.filter_cons]
    by_cases ha : a = name
    · have hne : k ≠ a := fun hk => h (hk.trans ha)
      have hb : (!((a, b).1 == name)) = false := by simp [ha]
      simp [hb, lookup_cons, hne, ih]
    · have hb : (!((a, b).1 == name)) = true := by simp [ha]
      simp only [hb, if_true, lookup_cons]
      by_cases hk : k = a
      · rw [if_pos hk, if_pos hk]
      · rw [if_neg hk, if_neg hk, ih]

theorem sumBy_cons (f : Rental → ℚ) (r : Rental) (rs : List Rental)
    (n : String) :
    sumBy f (r :: rs) n = (if r.category = n then f r else 0) + sumBy f rs n := by
  by_cases h : r.category = n
  · have hb : (r.category == n) = true := beq_iff_eq.mpr h
    simp [sumBy, List.filter_cons, hb, h]
  · have hb : (r.category == n) = false := beq_eq_false_iff_ne.mpr h
    simp [sumBy, List.filter_cons, hb, h]

theorem sumBy_append (f : Rental → ℚ) (rs₁ rs₂ : List Rental) (n : String) :
    sumBy f (rs₁ ++ rs₂) n = sumBy f rs₁ n + sumBy f rs₂ n := by
  simp [sumBy, List.filter_append]

theorem sumBy_filter_ne (f : Rental → ℚ) (rs : List Rental) (n m : String)
    (h : m ≠ n) :
    sumBy f (rs.filter (fun r => !(r.category == n))) m = sumBy f rs m := by
  induction rs with
  | nil => simp [sumBy]
  | cons r rs ih =>
    rw [List.filter_cons]
    by_cases hr : r.category = n
    · have hb : (r.category == n) = true := beq_iff_eq.mpr hr
      have hne : r.category ≠ m := fun hm => h (hm.symm.trans hr)
      simp [hb, ih, sumBy_cons, hne]
    · have hb : (r.category == n) = false := beq_eq_false_iff_ne.mpr hr
      simp [hb, ih, sumBy_cons]

theorem sumBy_eq_zero (f : Rental → ℚ) (rs : List Rental) (n : String)
    (h : ∀ r ∈ rs, r.category ≠ n) : sumBy f rs n = 0 := by
  induction rs with
  | nil => simp [sumBy]
  | cons r rs ih =>
    rw [sumBy_cons, if_neg (h r (by simp)), zero_add]
    exact ih (fun x hx => h x (by simp [hx]))

theorem filter_ne_filter_eq_nil (rs : List Rental) (name : String) :
    (rs.filter (fun r => !(r.category == name))).filter
      (fun r => r.category == name) = [] := by
  induction rs with
  | nil => simp
  | cons r rs ih =>
    rw [List.filter_cons]
    by_cases h : r.category = name
    · have hb : (r.category == name) = true := beq_iff_eq.mpr h
      rw [hb]
      simp only [Bool.not_true, Bool.false_eq_true, if_false]
      exact ih
    · have hb : (r.category == name) = false := beq_eq_false_iff_ne.mpr h
      rw [hb]
      simp only [Bool.not_false, if_true, List.filter_cons, hb,
        Bool.false_eq_true, if_false]
      exact ih

theorem lookup_insertPair (m : List (String × Category)) (k : String)
    (v : Category) (n : String) :
    List.lookup n (insertPair m k v)
      = if n = k then some v else List.lookup n m := by
  induction m with
  | nil => by_cases h : n = k <;> simp [insertPair, lookup_cons, h]
  | cons p m ih =>
    rcases p with ⟨a, b⟩
    by_cases ha : a = k
    · by_cases hn : n = k
      · simp [insertPair, lookup_cons, ha, hn]
      · have : n ≠ a := fun h => hn (h.trans ha)
        simp [insertPair, lookup_cons, ha, hn, this]
    · by_cases hn : n = a
      · have : n ≠ k := fun h => ha (hn.symm.trans h)
        simp [insertPair, lookup_cons, ha, hn, this]
      · simp [insertPair, lookup_cons, ha, hn, ih]

theorem lookup_migrate_aux (names : List String)
    (m : List (String × Category)) (n : String) :
    List.lookup n (names.foldl (fun acc na => insertPair acc na zeroCat) m)
      = if names.contains n then some zeroCat else List.lookup n m := by
  induction names generalizing m with
  | nil => simp
  | cons k names ih =>
    by_cases hk : n = k
    · subst hk
      simp [List.foldl_cons, ih, lookup_insertPair]
    · simp [List.foldl_cons, ih, lookup_insertPair, hk]

theorem pyIndex_none_iff (n : Nat) (i : Int) :
    pyIndex n i = none ↔ (i < -(n : Int) ∨ (n : Int) ≤ i) := by
  unfold pyIndex
  split_ifs with h1 h2 <;> simp <;> omega

theorem pyIndex_some_iff (n : Nat) (i : Int) (j : Nat) :
    pyIndex n i = some j ↔
      (-(n : Int) ≤ i ∧ i < (n : Int) ∧
        (j : Int) = if i < 0 then i + (n : Int) else i) := by
  by_cases hi : i < 0
  · rw [if_pos hi]
    unfold pyIndex
    rw [if_neg (by omega : ¬ (0 ≤ i ∧ i < (n : Int)))]
    by_cases hge : -(n : Int) ≤ i
    · rw [if_pos ⟨hge, hi⟩]
      simp
      omega
    · rw [if_neg (by omega : ¬ (-(n : Int) ≤ i ∧ i < 0))]
      constructor
      · intro h
        cases h
      · rintro ⟨hA, -, -⟩
        exact absurd hA hge
  · rw [if_neg hi]
    unfold pyIndex
    by_cases hlt : i < (n : Int)
    · rw [if_pos ⟨by omega, hlt⟩]
      simp
      omega
    · rw [if_neg (by omega : ¬ (0 ≤ i ∧ i < (n : Int))),
          if_neg (by omega : ¬ (-(n : Int) ≤ i ∧ i < 0))]
      constructor
      · intro h
        cases h
      · rintro ⟨-, hB, -⟩
        exact absurd hB hlt

theorem undo_rental_eq_ok (d : Data) (i : Int) (j : Nat)
    (hp : pyIndex d.rentals.length i = some j) :
    undo_rental d i = .ok
      ⟨(if hasCat d (d.rentals.getD j dfltRental).category then
          updateCat d.categories (d.rentals.getD j dfltRental).category
            (fun c => ⟨c.profit - (d.rentals.getD j dfltRental).profit,
                       c.expense - (d.rentals.getD j dfltRental).expense,
                       c.income - (d.rentals.getD j dfltRental).income⟩)
        else d.categories),
       d.rentals.eraseIdx j⟩ := by
  unfold undo_rental
  rw [hp]

theorem sumBy_singleton (f : Rental → ℚ) (r : Rental) (n : String) :
    sumBy f [r] n = if r.category = n then f r else 0 := by
  rw [show [r] = r :: [] from rfl, sumBy_cons]
  simp [sumBy]

theorem hasCat_updateCat (m : List (String × Category)) (name : String)
    (f : Category → Category) (k : String) :
    (List.lookup k (updateCat m name f)).isSome
      = (List.lookup k m).isSome := by
  rw [lookup_updateCat]
  by_cases h : k = name <;> simp [h]

theorem add_category_ok {d : Data} {n : String} (h : hasCat d n = false) :
    add_category d n = .ok ⟨d.categories ++ [(n, zeroCat)], d.rentals⟩ := by
  simp [add_category, h]

theorem add_category_dup {d : Data} {n : String} (h : hasCat d n = true) :
    add_category d n = .error .duplicate := by
  simp [add_category, h]

theorem add_rental_ok_shape {d : Data} {c : String} {p e : ℚ} {s t : String}
    {d' : Data} (h : add_rental d c p e s t = .ok d') :
    d'.categories
      = (if hasCat d c then
          updateCat d.categories c
            (fun cc => ⟨cc.profit + p, cc.expense + e, cc.income + (p - e)⟩)
        else d.categories) ∧
    d'.rentals = d.rentals ++ [mkRental c p e s t] := by
  unfold add_rental at h
  split at h
  · cases h
  · split at h
    · cases h
    · split at h
      · split at h
        · cases h
        · cases h
          exact ⟨rfl, rfl⟩
      all_goals cases h

theorem add_rental_missing_shape (d : Data) (c : String) (p e : ℚ)
    (s t : String) (hc : hasCat d c = false)
    (hs : validate_datetime_format s = true)
    (ht : validate_datetime_format t = true)
    (a b : Nat) (hps : parse_dt s = some a) (hpt : parse_dt t = some b)
    (hab : a < b) :
    add_rental d c p e s t
      = .ok ⟨d.categories, d.rentals ++ [mkRental c p e s t]⟩ := by
  have hba : ¬ b ≤ a := by omega
  simp [add_rental, hs, ht, hps, hpt, hc, hba]

theorem inv_applyOp_eq {d : Data} {op : Op} (hI : CatTotalsOK d)
    (hO : NoOrphan d) (h : applyOp d op = d) :
    CatTotalsOK (applyOp d op) ∧ NoOrphan (applyOp d op) := by
  rw [h]
  exact ⟨hI, hO⟩

theorem inv_add_category {d : Data} (n : String) (hI : CatTotalsOK d)
    (hO : NoOrphan d) :
    CatTotalsOK (applyOp d (.addCategory n)) ∧
    NoOrphan (applyOp d (.addCategory n)) := by
  by_cases h : hasCat d n
  · refine inv_applyOp_eq hI hO ?_
    simp [applyOp, add_category_dup h, Except.toOption]
  · have hh : hasCat d n = false := by simpa using h
    have hA : applyOp d (.addCategory n)
        = ⟨d.categories ++ [(n, zeroCat)], d.rentals⟩ := by
      simp [applyOp, add_category_ok hh, Except.toOption]
    rw [hA]
    have hnone : ∀ r ∈ d.rentals, r.category ≠ n := by
      intro r hr he
      have := hO r hr
      rw [he] at this
      rw [this] at hh
      cases hh
    constructor
    · intro q hq
      rcases List.mem_append.mp hq with hq | hq
      · exact hI q hq
      · have hq2 : q = (n, zeroCat) := by simpa using hq
        subst hq2
        refine ⟨?_, ?_, ?_⟩ <;>
          simp [zeroCat, sumBy_eq_zero _ _ _ hnone]
    · intro r hr
      have := hO r hr
      unfold hasCat at this ⊢
      obtain ⟨v, hv⟩ := Option.isSome_iff_exists.mp this
      rw [lookup_append_some hv]
      rfl

theorem inv_add_rental {d : Data} (c : String) (p e : ℚ) (s t : String)
    (hI : CatTotalsOK d) (hO : NoOrphan d) (hsafe : hasCat d c = true) :
    CatTotalsOK (applyOp d (.addRental c p e s t)) ∧
    NoOrphan (applyOp d (.addRental c p e s t)) := by
  cases hres : add_rental d c p e s t with
  | error err =>
    refine inv_applyOp_eq hI hO ?_
    simp [applyOp, hres, Except.toOption]
  | ok d' =>
    have hA : applyOp d (.addRental c p e s t) = d' := by
      simp [applyOp, hres, Except.toOption]
    obtain ⟨hcats, hrent⟩ := add_rental_ok_shape hres
    rw [if_pos hsafe] at hcats
    rw [hA]
    constructor
    · intro q hq
      rw [hcats] at hq
      obtain ⟨q0, hq0, hqe⟩ := List.mem_map.mp hq
      by_cases hqc : q0.1 = c
      · rw [if_pos hqc] at hqe
        subst hqe
        obtain ⟨hp1, hp2, hp3⟩ := hI q0 hq0
        rw [hrent]
        refine ⟨?_, ?_, ?_⟩ <;>
          simp [sumBy_append, sumBy_singleton, mkRental, hqc, hp1, hp2, hp3]
      · rw [if_neg hqc] at hqe
        subst hqe
        obtain ⟨hp1, hp2, hp3⟩ := hI q0 hq0
        have hcq : ¬ ((c : String) = q0.1) := fun hh => hqc hh.symm
        rw [hrent]
        refine ⟨?_, ?_, ?_⟩ <;>
          simp [sumBy_append, sumBy_singleton, mkRental, hcq, hp1, hp2, hp3]
    · intro r hr
      rw [hrent] at hr
      unfold hasCat
      rw [hcats, hasCat_updateCat]
      rcases List.mem_append.mp hr with hr | hr
      · exact hO r hr
      · have hr2 : r = mkRental c p e s t := by simpa using hr
        subst hr2
        exact hsafe

theorem inv_delete {d : Data} (n : String) (hI : CatTotalsOK d)
    (hO : NoOrphan d) :
    CatTotalsOK (applyOp d (.deleteCategory n)) ∧
    NoOrphan (applyOp d (.deleteCategory n)) := by
  by_cases h : hasCat d n
  · have hA : applyOp d (.deleteCategory n)
        = ⟨d.categories.filter (fun q => !(q.1 == n)),
           d.rentals.filter (fun r => !(r.category == n))⟩ := by
      simp [applyOp, delete_category, h, Except.toOption]
    rw [hA]
    constructor
    · intro q hq
      have hq2 := List.mem_filter.mp hq
      have hqn : q.1 ≠ n := by simpa using hq2.2
      obtain ⟨hp1, hp2, hp3⟩ := hI q hq2.1
      refine ⟨?_, ?_, ?_⟩ <;>
        simp [sumBy_filter_ne _ _ _ _ hqn, hp1, hp2, hp3]
    · intro r hr
      have hr2 := List.mem_filter.mp hr
      have hrn : r.category ≠ n := by simpa using hr2.2
      unfold hasCat
      rw [lookup_filter_ne _ _ _ hrn]
      exact hO r hr2.1
  · refine inv_applyOp_eq hI hO ?_
    have hh : hasCat d n = false := by simpa using h
    simp [applyOp, delete_category, hh, Except.toOption]

theorem digit_toNat_ge {c : Char} (h : c.isDigit = true) : 48 ≤ c.toNat := by
  simp [Char.isDigit] at h
  have h1 := h.1
  rw [UInt32.le_def] at h1
  simpa [Char.toNat] using h1

theorem digit_toNat_le {c : Char} (h : c.isDigit = true) : c.toNat ≤ 57 := by
  simp [Char.isDigit] at h
  have h1 := h.2
  rw [UInt32.le_def] at h1
  simpa [Char.toNat] using h1

theorem digit_bne_dash {c : Char} (h : c.isDigit = true) :
    (c == '-') = false := by
  cases hb : c == '-'
  · rfl
  · exact absurd (eq_of_beq hb ▸ h) (by decide)

theorem digit_bne_dot {c : Char} (h : c.isDigit = true) :
    (c == '.') = false := by
  cases hb : c == '.'
  · rfl
  · exact absurd (eq_of_beq hb ▸ h) (by decide)

theorem digit_bne_colon {c : Char} (h : c.isDigit = true) :
    (c == ':') = false := by
  cases hb : c == ':'
  · rfl
  · exact absurd (eq_of_beq hb ▸ h) (by decide)

theorem digit_not_space {c : Char} (h : c.isDigit = true) :
    isPySpace c = false := by
  have h1 := digit_toNat_ge h
  cases hb : isPySpace c
  · rfl
  · exfalso
    simp [isPySpace] at hb
    rcases hb with ((((rfl | rfl) | rfl) | rfl) | rfl) | rfl <;>
      exact absurd h1 (by decide)

theorem stripWs_pair {a b : Char} (ha : a.isDigit = true)
    (hb : b.isDigit = true) : stripWs [a, b] = [a, b] := by
  simp [stripWs, List.dropWhile, digit_not_space ha, digit_not_space hb]

theorem stripWs_pair_nl {a b : Char} (ha : a.isDigit = true)
    (hb : b.isDigit = true) : stripWs [a, b, '\n'] = [a, b] := by
  have hnl : isPySpace '\n' = true := by decide
  simp [stripWs, List.dropWhile, digit_not_space ha, digit_not_space hb, hnl]

theorem toIntOpt_pair {a b : Char} (ha : a.isDigit = true)
    (hb : b.isDigit = true) :
    toIntOpt [a, b] = some (digitVal2 a b) := by
  simp [toIntOpt, stripWs_pair ha hb, ha, hb, List.foldl, digitVal2]

theorem toIntOpt_pair_nl {a b : Char} (ha : a.isDigit = true)
    (hb : b.isDigit = true) :
    toIntOpt [a, b, '\n'] = some (digitVal2 a b) := by
  simp [toIntOpt, stripWs_pair_nl ha hb, ha, hb, List.foldl, digitVal2]

theorem parseFields_shape (h1 h2 m1 m2 d1 d2 n1 n2 y1 y2 : Char)
    (hh1 : h1.isDigit = true) (hh2 : h2.isDigit = true)
    (hm1 : m1.isDigit = true) (hm2 : m2.isDigit = true)
    (hd1 : d1.isDigit = true) (hd2 : d2.isDigit = true)
    (hn1 : n1.isDigit = true) (hn2 : n2.isDigit = true)
    (hy1 : y1.isDigit = true) (hy2 : y2.isDigit = true) :
    parseFields [h1, h2, ':', m1, m2, '-', d1, d2, '.', n1, n2, '.', y1, y2]
      = some (digitVal2 d1 d2, digitVal2 n1 n2, digitVal2 y1 y2,
              digitVal2 h1 h2, digitVal2 m1 m2) := by
  have e1 : splitOnChar '-'
      [h1, h2, ':', m1, m2, '-', d1, d2, '.', n1, n2, '.', y1, y2]
      = [[h1, h2, ':', m1, m2], [d1, d2, '.', n1, n2, '.', y1, y2]] := by
    simp [splitOnChar, digit_bne_dash hh1, digit_bne_dash hh2,
      digit_bne_dash hm1, digit_bne_dash hm2, digit_bne_dash hd1,
      digit_bne_dash hd2, digit_bne_dash hn1, digit_bne_dash hn2,
      digit_bne_dash hy1, digit_bne_dash hy2]
  have e2 : splitOnChar '.' [d1, d2, '.', n1, n2, '.', y1, y2]
      = [[d1, d2], [n1, n2], [y1, y2]] := by
    simp [splitOnChar, digit_bne_dot hd1, digit_bne_dot hd2,
      digit_bne_dot hn1, digit_bne_dot hn2, digit_bne_dot hy1,
      digit_bne_dot hy2]
  have e3 : splitOnChar ':' [h1, h2, ':', m1, m2] = [[h1, h2], [m1, m2]] := by
    simp [splitOnChar, digit_bne_colon hh1, digit_bne_colon hh2,
      digit_bne_colon hm1, digit_bne_colon hm2]
  rw [parseFields, e1]
  simp only [e2, e3, toIntOpt_pair hd1 hd2, toIntOpt_pair hn1 hn2,
    toIntOpt_pair hy1 hy2, toIntOpt_pair hh1 hh2, toIntOpt_pair hm1 hm2]

theorem parseFields_shape_nl (h1 h2 m1 m2 d1 d2 n1 n2 y1 y2 : Char)
    (hh1 : h1.isDigit = true) (hh2 : h2.isDigit = true)
    (hm1 : m1.isDigit = true) (hm2 : m2.isDigit = true)
    (hd1 : d1.isDigit = true) (hd2 : d2.isDigit = true)
    (hn1 : n1.isDigit = true) (hn2 : n2.isDigit = true)
    (hy1 : y1.isDigit = true) (hy2 : y2.isDigit = true) :
    parseFields
        [h1, h2, ':', m1, m2, '-', d1, d2, '.', n1, n2, '.', y1, y2, '\n']
      = some (digitVal2 d1 d2, digitVal2 n1 n2, digitVal2 y1 y2,
              digitVal2 h1 h2, digitVal2 m1 m2) := by
  have e1 : splitOnChar '-'
      [h1, h2, ':', m1, m2, '-', d1, d2, '.', n1, n2, '.', y1, y2, '\n']
      = [[h1, h2, ':', m1, m2], [d1, d2, '.', n1, n2, '.', y1, y2, '\n']] := by
    simp [splitOnChar, digit_bne_dash hh1, digit_bne_dash hh2,
      digit_bne_dash hm1, digit_bne_dash hm2, digit_bne_dash hd1,
      digit_bne_dash hd2, digit_bne_dash hn1, digit_bne_dash hn2,
      digit_bne_dash hy1, digit_bne_dash hy2]
  have e2 : splitOnChar '.' [d1, d2, '.', n1, n2, '.', y1, y2, '\n']
      = [[d1, d2], [n1, n2], [y1, y2, '\n']] := by
    simp [splitOnChar, digit_bne_dot hd1, digit_bne_dot hd2,
      digit_bne_dot hn1, digit_bne_dot hn2, digit_bne_dot hy1,
      digit_bne_dot hy2]
  have e3 : splitOnChar ':' [h1, h2, ':', m1, m2] = [[h1, h2], [m1, m2]] := by
    simp [splitOnChar, digit_bne_colon hh1, digit_bne_colon hh2,
      digit_bne_colon hm1, digit_bne_colon hm2]
  rw [parseFields, e1]
  simp only [e2, e3, toIntOpt_pair hd1 hd2, toIntOpt_pair hn1 hn2,
    toIntOpt_pair_nl hy1 hy2, toIntOpt_pair hh1 hh2, toIntOpt_pair hm1 hm2]

theorem matchShape_inv {cs : List Char} (h : matchShape cs = true) :
    ∃ h1 h2 m1 m2 d1 d2 n1 n2 y1 y2 : Char,
      (cs = [h1, h2, ':', m1, m2, '-', d1, d2, '.', n1, n2, '.', y1, y2] ∨
       cs = [h1, h2, ':', m1, m2, '-', d1, d2, '.', n1, n2, '.', y1, y2,
             '\n']) ∧
      h1.isDigit = true ∧ h2.isDigit = true ∧ m1.isDigit = true ∧
      m2.isDigit = true ∧ d1.isDigit = true ∧ d2.isDigit = true ∧
      n1.isDigit = true ∧ n2.isDigit = true ∧ y1.isDigit = true ∧
      y2.isDigit = true := by
  rcases cs with _ | ⟨a1, cs⟩
  · exact Bool.noConfusion h
  rcases cs with _ | ⟨a2, cs⟩
  · exact Bool.noConfusion h
  rcases cs with _ | ⟨c1, cs⟩
  · exact Bool.noConfusion h
  rcases cs with _ | ⟨b1, cs⟩
  · exact Bool.noConfusion h
  rcases cs with _ | ⟨b2, cs⟩
  · exact Bool.noConfusion h
  rcases cs with _ | ⟨c2, cs⟩
  · exact Bool.noConfusion h
  rcases cs with _ | ⟨e1, cs⟩
  · exact Bool.noConfusion h
  rcases cs with _ | ⟨e2, cs⟩
  · exact Bool.noConfusion h
  rcases cs with _ | ⟨c3, cs⟩
  · exact Bool.noConfusion h
  rcases cs with _ | ⟨f1, cs⟩
  · exact Bool.noConfusion h
  rcases cs with _ | ⟨f2, cs⟩
  · exact Bool.noConfusion h
  rcases cs with _ | ⟨c4, cs⟩
  · exact Bool.noConfusion h
  rcases cs with _ | ⟨g1, cs⟩
  · exact Bool.noConfusion h
  rcases cs with _ | ⟨g2, cs⟩
  · exact Bool.noConfusion h
  rcases cs with _ | ⟨z, cs⟩
  · simp only [matchShape, shapeDigits, Bool.and_eq_true, beq_iff_eq] at h
    obtain ⟨⟨⟨⟨⟨⟨⟨⟨⟨⟨⟨⟨⟨hh1, hh2⟩, hc1⟩, hb1⟩, hb2⟩, hc2⟩, he1⟩, he2⟩,
      hc3⟩, hf1⟩, hf2⟩, hc4⟩, hg1⟩, hg2⟩ := h
    subst hc1
    subst hc2
    subst hc3
    subst hc4
    exact ⟨a1, a2, b1, b2, e1, e2, f1, f2, g1, g2, Or.inl rfl, hh1, hh2,
      hb1, hb2, he1, he2, hf1, hf2, hg1, hg2⟩
  · rcases cs with _ | ⟨w, cs⟩
    · simp only [matchShape, shapeDigits, Bool.and_eq_true, beq_iff_eq] at h
      obtain ⟨⟨⟨⟨⟨⟨⟨⟨⟨⟨⟨⟨⟨⟨hh1, hh2⟩, hc1⟩, hb1⟩, hb2⟩, hc2⟩, he1⟩, he2⟩,
        hc3⟩, hf1⟩, hf2⟩, hc4⟩, hg1⟩, hg2⟩, hz⟩ := h
      subst hc1
      subst hc2
      subst hc3
      subst hc4
      subst hz
      exact ⟨a1, a2, b1, b2, e1, e2, f1, f2, g1, g2, Or.inr rfl, hh1, hh2,
        hb1, hb2, he1, he2, hf1, hf2, hg1, hg2⟩
    · exact Bool.noConfusion h

theorem dtValid_iff {y mo d h mi : Nat} (hy1 : 1 ≤ y) (hy : y ≤ 9999) :
    dtValid y mo d h mi = true ↔
      (1 ≤ mo ∧ mo ≤ 12 ∧ 1 ≤ d ∧ d ≤ daysInMonth y mo ∧
       h ≤ 23 ∧ mi ≤ 59) := by
  simp [dtValid, hy1, hy, and_assoc]

theorem digitVal2_le99 {a b : Char} (ha : a.isDigit = true)
    (hb : b.isDigit = true) : digitVal2 a b ≤ 99 := by
  have h1 := digit_toNat_ge ha
  have h2 := digit_toNat_le ha
  have h3 := digit_toNat_ge hb
  have h4 := digit_toNat_le hb
  unfold digitVal2
  omega

theorem reachable_inv (d : Data) (h : ReachableSafe d) :
    CatTotalsOK d ∧ NoOrphan d := by
  induction h with
  | init =>
    exact ⟨fun q hq => absurd hq (by simp [emptyData]),
           fun r hr => absurd hr (by simp [emptyData])⟩
  | step d op hd hsafe ih =>
    cases op with
    | addCategory n => exact inv_add_category n ih.1 ih.2
    | addRental c p e s t => exact inv_add_rental c p e s t ih.1 ih.2 hsafe
    | undoRental i => exact False.elim hsafe
    | deleteCategory n => exact inv_delete n ih.1 ih.2

/-! ## Claims -/

/-- C1 fails as stated: an addRental naming a not-yet-existing category
appends the rental without totals, and a later addCategory of that name
creates a zero-valued record while a rental with nonzero profit references
it, so the record's profit (0) differs from the rental sum (1). -/
theorem claim_C1_counterexample :
    List.lookup "A"
        (runOps [.addRental "A" 1 0 "14:06-11.07.25" "18:00-11.07.25",
                 .addCategory "A"]).categories = some zeroCat ∧
    sumBy Rental.profit
        (runOps [.addRental "A" 1 0 "14:06-11.07.25" "18:00-11.07.25",
                 .addCategory "A"]).rentals "A" = 1 ∧
    zeroCat.profit ≠ (1 : ℚ) := by
  have hstep1 : applyOp emptyData
      (.addRental "A" 1 0 "14:06-11.07.25" "18:00-11.07.25")
      = ⟨[], [mkRental "A" 1 0 "14:06-11.07.25" "18:00-11.07.25"]⟩ := by
    have hsh := add_rental_missing_shape emptyData "A" 1 0
      "14:06-11.07.25" "18:00-11.07.25" rfl (by decide) (by decide)
      805557960 805572000 (by decide) (by decide) (by decide)
    simp only [applyOp]
    rw [hsh]
    rfl
  have hrun : runOps [.addRental "A" 1 0 "14:06-11.07.25" "18:00-11.07.25",
      .addCategory "A"]
      = ⟨[("A", zeroCat)],
         [mkRental "A" 1 0 "14:06-11.07.25" "18:00-11.07.25"]⟩ := by
    have h2 : hasCat (⟨[], [mkRental "A" 1 0 "14:06-11.07.25" "18:00-11.07.25"]⟩
        : Data) "A" = false := rfl
    simp only [runOps, List.foldl_cons, List.foldl_nil]
    rw [hstep1]
    simp only [applyOp]
    rw [add_category_ok h2]
    rfl
  rw [hrun]
  refine ⟨by simp [lookup_cons], ?_, by simp [zeroCat]⟩
  simp [sumBy_singleton, mkRental]

/-- C1 amended: for every state reachable from the empty store by a finite
sequence of addCategory, addRental and deleteCategory operations (no
undoRental) in which each addRental names a category present at the time of
the call, every Category record's profit, expense and income equal the sums
of the corresponding fields over the rentals whose category name references
it.  Both sides of each equality are built by the identical in-order chain
of additions, so the equality also holds value-for-value for the IEEE-754
doubles the source computes with; undoRental is excluded because float
subtraction does not cancel exactly. -/
theorem claim_C1_invariant (d : Data) (h : ReachableSafe d) : CatTotalsOK d :=
  (reachable_inv d h).1

/-- Concrete instance of the amended C1. -/
theorem claim_C1_invariant_witness :
    CatTotalsOK (applyOp emptyData (.addCategory "A")) :=
  claim_C1_invariant _
    (ReachableSafe.step emptyData (.addCategory "A") ReachableSafe.init
      trivial)

/-- C10: `show_category_stats` reports totals computed by summing over the
rentals currently recorded under the name (income as profit minus expense),
independently of the stored Category record. -/
theorem claim_C10_stats_from_rentals (d : Data) (name : String) :
    (show_category_stats d name).total_profit = sumBy Rental.profit d.rentals name ∧
    (show_category_stats d name).total_expense = sumBy Rental.expense d.rentals name ∧
    (show_category_stats d name).total_income
      = sumBy Rental.profit d.rentals name - sumBy Rental.expense d.rentals name ∧
    ∀ cats : List (String × Category),
      show_category_stats ⟨cats, d.rentals⟩ name = show_category_stats d name :=
  ⟨rfl, rfl, rfl, fun _ => rfl⟩

/-- C8: on an existing name, `delete_category` removes the category entry and
every rental referencing it, after which `show_category_stats` returns the
zero-totals/empty-list fallback; on a missing name it fails with not-found
and nothing changes. -/
theorem claim_C8_delete_category (d : Data) (name : String) :
    (hasCat d name = true →
      delete_category d name
        = .ok ⟨d.categories.filter (fun p => !(p.1 == name)),
               d.rentals.filter (fun r => !(r.category == name))⟩ ∧
      show_category_stats
        ⟨d.categories.filter (fun p => !(p.1 == name)),
         d.rentals.filter (fun r => !(r.category == name))⟩ name
        = ⟨0, 0, 0, []⟩) ∧
    (hasCat d name = false → delete_category d name = .error .notFound) := by
  constructor
  · intro h
    refine ⟨by simp [delete_category, h], ?_⟩
    simp [show_category_stats, filter_ne_filter_eq_nil]
  · intro h
    simp [delete_category, h]

/-- Concrete instance of C8: deleting the sole category empties the store,
deleting a missing name fails. -/
theorem claim_C8_delete_category_witness :
    delete_category ⟨[("A", zeroCat)], [mkRental "A" 2 1 "s" "t"]⟩ "A"
        = .ok ⟨[], []⟩ ∧
    delete_category ⟨[("A", zeroCat)], [mkRental "A" 2 1 "s" "t"]⟩ "B"
        = .error .notFound := by
  have h := (claim_C8_delete_category
    ⟨[("A", zeroCat)], [mkRental "A" 2 1 "s" "t"]⟩ "A").1 (by decide)
  have h2 := (claim_C8_delete_category
    ⟨[("A", zeroCat)], [mkRental "A" 2 1 "s" "t"]⟩ "B").2 (by decide)
  exact ⟨h.1.trans (by decide), h2⟩

/-- C9: `load_data` migrates a legacy flat category list to the map form
(one zero-valued record per listed name) and writes the migrated document
back immediately; a document already in map form is returned unchanged with
nothing written. -/
theorem claim_C9_load_migration :
    (∀ names rs, load_data (.doc ⟨.legacy names, rs⟩)
        = (⟨migrateCats names, rs⟩, some ⟨.table (migrateCats names), rs⟩)) ∧
    (∀ names n, List.lookup n (migrateCats names)
        = if names.contains n then some zeroCat else none) ∧
    (∀ m rs, load_data (.doc ⟨.table m, rs⟩) = (⟨m, rs⟩, none)) := by
  refine ⟨fun _ _ => rfl, fun names n => ?_, fun _ _ => rfl⟩
  simpa [migrateCats] using lookup_migrate_aux names [] n

/-- C2 fails on the code: adding a rental whose category is not a key does
not produce a not-found error — the rental is appended anyway. -/
theorem claim_C2_counterexample :
    add_rental emptyData "A" 1 0 "14:06-11.07.25" "18:00-11.07.25"
      = .ok ⟨[], [mkRental "A" 1 0 "14:06-11.07.25" "18:00-11.07.25"]⟩ := by
  have hs : validate_datetime_format "14:06-11.07.25" = true := by decide
  have ht : validate_datetime_format "18:00-11.07.25" = true := by decide
  have hps : parse_dt "14:06-11.07.25" = some 805557960 := by decide
  have hpt : parse_dt "18:00-11.07.25" = some 805572000 := by decide
  have hc : hasCat emptyData "A" = false := rfl
  have hba : ¬ (805572000 : Nat) ≤ 805557960 := by decide
  simp [add_rental, hs, ht, hps, hpt, hc, hba]
  exact ⟨rfl, rfl⟩

/-- C2 amended: an `add_rental` whose times are valid and ordered but whose
category is not a key succeeds, appending the rental and leaving the
categories map (and all totals) untouched. -/
theorem claim_C2_missing_category_appends (d : Data) (c : String) (p e : ℚ)
    (s t : String) (hc : hasCat d c = false)
    (hs : validate_datetime_format s = true)
    (ht : validate_datetime_format t = true)
    (a b : Nat) (hps : parse_dt s = some a) (hpt : parse_dt t = some b)
    (hab : a < b) :
    add_rental d c p e s t
      = .ok ⟨d.categories, d.rentals ++ [mkRental c p e s t]⟩ := by
  have hba : ¬ b ≤ a := by omega
  simp [add_rental, hs, ht, hps, hpt, hc, hba]

/-- Concrete instance of the amended C2. -/
theorem claim_C2_missing_category_appends_witness :
    add_rental emptyData "B" 2 1 "14:06-11.07.25" "18:00-11.07.25"
      = .ok ⟨[], [mkRental "B" 2 1 "14:06-11.07.25" "18:00-11.07.25"]⟩ :=
  claim_C2_missing_category_appends emptyData "B" 2 1
    "14:06-11.07.25" "18:00-11.07.25" (by decide) (by decide) (by decide)
    805557960 805572000 (by decide) (by decide) (by decide)

/-- C3 fails on the code: Python indexing accepts the negative index `-1` on
a one-element rental list, removing the rental instead of raising
`IndexError`. -/
theorem claim_C3_counterexample :
    undo_rental fixA (-1) ≠ .error .indexErr ∧
    (undo_rental fixA (-1)).toOption.map Data.rentals = some [] := by
  rw [undo_rental_eq_ok fixA (-1) 0 (by decide)]
  exact ⟨fun h => Except.noConfusion h, rfl⟩

/-- C3 amended: `undo_rental i` on `n` rentals fails with `IndexError` (and
changes nothing) exactly when `i < -n` or `i ≥ n`; otherwise it resolves `i`
the Python way (`n + i` when negative), subtracts that rental's fields from
its category's totals when the category still exists, and removes it. -/
theorem claim_C3_undo_rental (d : Data) (i : Int) :
    ((i < -(d.rentals.length : Int) ∨ (d.rentals.length : Int) ≤ i) →
        undo_rental d i = .error .indexErr) ∧
    (∀ j : Nat, -(d.rentals.length : Int) ≤ i →
        i < (d.rentals.length : Int) →
        (j : Int) = (if i < 0 then i + (d.rentals.length : Int) else i) →
        ∀ r, d.rentals.get? j = some r →
        undo_rental d i = .ok
          ⟨(if hasCat d r.category then
              updateCat d.categories r.category
                (fun c => ⟨c.profit - r.profit, c.expense - r.expense,
                           c.income - r.income⟩)
            else d.categories),
           d.rentals.eraseIdx j⟩) := by
  constructor
  · intro h
    unfold undo_rental
    rw [(pyIndex_none_iff _ _).mpr h]
  · intro j h1 h2 hj r hr
    have hp : pyIndex d.rentals.length i = some j :=
      (pyIndex_some_iff _ _ _).mpr ⟨h1, h2, hj⟩
    have hg : d.rentals.getD j dfltRental = r := by
      rw [List.getD_eq_getElem?_getD, ← List.get?_eq_getElem?, hr]
      rfl
    rw [undo_rental_eq_ok d i j hp, hg]

/-- Concrete instance of the amended C3: index 5 raises on one rental,
index 0 undoes it. -/
theorem claim_C3_undo_rental_witness :
    undo_rental fixB 5 = .error .indexErr ∧
    undo_rental fixB 0 = .ok
      ⟨updateCat fixB.categories "B"
        (fun c => ⟨c.profit - 3, c.expense - 1, c.income - (3 - 1)⟩), []⟩ := by
  constructor
  · exact (claim_C3_undo_rental fixB 5).1 (by decide)
  · exact (claim_C3_undo_rental fixB 0).2 0 (by decide) (by decide) (by decide)
      (mkRental "B" 3 1 "10:00-01.01.24" "11:00-01.01.24") rfl

/-- C7: an `add_rental` whose two time texts validate but whose parsed end
instant is not after the start is rejected with the ordering error and the
store is unchanged. -/
theorem claim_C7_order_rejected (d : Data) (c : String) (p e : ℚ)
    (s t : String) (hs : validate_datetime_format s = true)
    (ht : validate_datetime_format t = true)
    (a b : Nat) (hps : parse_dt s = some a) (hpt : parse_dt t = some b)
    (hba : b ≤ a) :
    add_rental d c p e s t = .error .order ∧
    applyOp d (.addRental c p e s t) = d := by
  have h1 : add_rental d c p e s t = .error .order := by
    simp [add_rental, hs, ht, hps, hpt, hba]
  exact ⟨h1, by simp [applyOp, h1, Except.toOption]⟩

theorem tickRentals_spec (now : Nat) (rs : List Rental) : ∀ i : Nat,
    tickRentals now i rs
      = (rs.map (fun r =>
            if notifyNow r now then { r with notified := true } else r),
         ((rs.enumFrom i).filter (fun p => notifyNow p.2 now)).map
           (fun p => (p.1, p.2.category))) := by
  induction rs with
  | nil => intro i; rfl
  | cons r rs ih =>
    intro i
    rw [tickRentals, ih (i + 1)]
    by_cases hn : r.notified
    · simp [notifyNow, hn, List.enumFrom_cons]
    · cases hp : parse_dt r.end_time with
      | none =>
        simp [notifyNow, hn, hp, List.enumFrom_cons]
      | some e =>
        by_cases hw : e ≤ now ∧ now < e + 60
        · simp [notifyNow, hn, hp, hw, List.enumFrom_cons]
        · simp [notifyNow, hn, hp, hw, List.enumFrom_cons]

theorem tick_preserves_notified (d : Data) (now : Nat) (j : Nat) (r : Rental)
    (hr : d.rentals.get? j = some r) (hn : r.notified = true) :
    (check_rental_end_times d now).1.rentals.get? j = some r ∧
    ∀ c, (j, c) ∉ (check_rental_end_times d now).2 := by
  have hmark : notifyNow r now = false := by simp [notifyNow, hn]
  have h := tickRentals_spec now d.rentals 0
  constructor
  · unfold check_rental_end_times
    rw [h]
    simp only [List.get?_eq_getElem?, List.getElem?_map]
    rw [← List.get?_eq_getElem?, hr]
    simp [hmark]
  · intro c hc
    unfold check_rental_end_times at hc
    rw [h] at hc
    simp only [List.mem_map, List.mem_filter] at hc
    obtain ⟨p, ⟨hpm, hpn⟩, hpe⟩ := hc
    rcases p with ⟨k, x⟩
    have hp1 : k = j := congrArg Prod.fst hpe
    subst hp1
    have hx : d.rentals.get? k = some x := by
      have h2 := (List.mk_mem_enumFrom_iff_le_and_getElem?_sub).mp hpm
      simpa [List.get?_eq_getElem?] using h2.2
    rw [hr] at hx
    cases hx
    rw [hmark] at hpn
    cases hpn

theorem runTicks_preserves_notified (d : Data) (j : Nat) (r : Rental)
    (hr : d.rentals.get? j = some r) (hn : r.notified = true) :
    ∀ nows, (runTicks d nows).rentals.get? j = some r := by
  intro nows
  induction nows generalizing d with
  | nil => exact hr
  | cons n ns ih =>
    exact ih _ (tick_preserves_notified d n j r hr hn).1

/-- C4 fails as stated: Python's `$` matches just before a trailing newline
and `int()` strips it, so the source's validate accepts
`"14:06-11.07.25\n"`, a 15-character string that does not have the exact
`HH:MM-DD.MM.YY` shape the claim requires for acceptance. -/
theorem claim_C4_counterexample :
    validate_datetime_format "14:06-11.07.25\n" = true ∧
    ("14:06-11.07.25\n").data.length = 15 := by
  decide

/-- C4 amended: for ASCII strings, `validate_datetime_format` accepts
exactly the `HH:MM-DD.MM.YY` shape, optionally followed by one trailing
newline, with calendar-valid fields read with year `2000 + YY`; the three
listed malformed examples are still rejected.  (Non-ASCII strings are
outside the statement: Python's `\d` and `int()` also accept Unicode
digits.) -/
theorem claim_C4_validate :
    (∀ s : String, AsciiOnly s →
      (validate_datetime_format s = true ↔ specValidDT s)) ∧
    validate_datetime_format "25:00-01.01.25" = false ∧
    validate_datetime_format "14:06-32.01.25" = false ∧
    validate_datetime_format "1406-11.07.25" = false := by
  refine ⟨fun s hascii => ?_, by decide, by decide, by decide⟩
  constructor
  · intro h
    rw [validate_datetime_format, Bool.and_eq_true] at h
    obtain ⟨hms, hp⟩ := h
    obtain ⟨h1, h2, m1, m2, d1, d2, n1, n2, y1, y2, hdata, hh1, hh2, hm1,
      hm2, hd1, hd2, hn1, hn2, hy1c, hy2c⟩ := matchShape_inv hms
    have hpf : parseFields s.data
        = some (digitVal2 d1 d2, digitVal2 n1 n2, digitVal2 y1 y2,
                digitVal2 h1 h2, digitVal2 m1 m2) := by
      rcases hdata with hdata | hdata
      · rw [hdata]
        exact parseFields_shape h1 h2 m1 m2 d1 d2 n1 n2 y1 y2
          hh1 hh2 hm1 hm2 hd1 hd2 hn1 hn2 hy1c hy2c
      · rw [hdata]
        exact parseFields_shape_nl h1 h2 m1 m2 d1 d2 n1 n2 y1 y2
          hh1 hh2 hm1 hm2 hd1 hd2 hn1 hn2 hy1c hy2c
    rw [parse_dt, hpf] at hp
    have hyb : digitVal2 y1 y2 ≤ 99 := digitVal2_le99 hy1c hy2c
    by_cases hdv : dtValid (2000 + digitVal2 y1 y2) (digitVal2 n1 n2)
        (digitVal2 d1 d2) (digitVal2 h1 h2) (digitVal2 m1 m2) = true
    · obtain ⟨hmo1, hmo2, hdd1, hdd2, hhh, hmm⟩ :=
        (dtValid_iff (by omega) (by omega)).mp hdv
      exact ⟨h1, h2, m1, m2, d1, d2, n1, n2, y1, y2, hdata, hh1, hh2, hm1,
        hm2, hd1, hd2, hn1, hn2, hy1c, hy2c, by omega, by omega, hmo1, hmo2,
        hdd1, hdd2⟩
    · simp [hdv] at hp
  · rintro ⟨h1, h2, m1, m2, d1, d2, n1, n2, y1, y2, hdata, hh1, hh2, hm1,
      hm2, hd1, hd2, hn1, hn2, hy1c, hy2c, hlt24, hlt60, hmo1, hmo2, hdd1,
      hdim⟩
    rw [validate_datetime_format, Bool.and_eq_true]
    have hyb : digitVal2 y1 y2 ≤ 99 := digitVal2_le99 hy1c hy2c
    have hdv : dtValid (2000 + digitVal2 y1 y2) (digitVal2 n1 n2)
        (digitVal2 d1 d2) (digitVal2 h1 h2) (digitVal2 m1 m2) = true := by
      rw [dtValid_iff (by omega) (by omega)]
      exact ⟨hmo1, hmo2, hdd1, hdim, by omega, by omega⟩
    rcases hdata with hdata | hdata
    · have hpf := parseFields_shape h1 h2 m1 m2 d1 d2 n1 n2 y1 y2
        hh1 hh2 hm1 hm2 hd1 hd2 hn1 hn2 hy1c hy2c
      constructor
      · rw [hdata]
        simp [matchShape, shapeDigits, hh1, hh2, hm1, hm2, hd1, hd2, hn1,
          hn2, hy1c, hy2c]
      · rw [parse_dt, hdata, hpf]
        simp [hdv]
    · have hpf := parseFields_shape_nl h1 h2 m1 m2 d1 d2 n1 n2 y1 y2
        hh1 hh2 hm1 hm2 hd1 hd2 hn1 hn2 hy1c hy2c
      constructor
      · rw [hdata]
        simp [matchShape, shapeDigits, hh1, hh2, hm1, hm2, hd1, hd2, hn1,
          hn2, hy1c, hy2c]
      · rw [parse_dt, hdata, hpf]
        simp [hdv]

/-- Concrete instance of the amended C4: the newline-suffixed string is
accepted and satisfies the amended shape predicate. -/
theorem claim_C4_validate_witness :
    validate_datetime_format "14:06-11.07.25\n" = true ↔
      specValidDT "14:06-11.07.25\n" :=
  claim_C4_validate.1 "14:06-11.07.25\n" (by decide)

/-- C5: one tick at `now` leaves the categories untouched, flips `notified`
on exactly the rentals that are unnotified with a parsed end instant `e`
satisfying `e ≤ now < e + 60`, and emits one notification per such rental,
naming its category. -/
theorem claim_C5_tick (d : Data) (now : Nat) :
    (check_rental_end_times d now).1.categories = d.categories ∧
    (check_rental_end_times d now).1.rentals
      = d.rentals.map (fun r =>
          if notifyNow r now then { r with notified := true } else r) ∧
    (check_rental_end_times d now).2
      = ((d.rentals.enumFrom 0).filter (fun p => notifyNow p.2 now)).map
          (fun p => (p.1, p.2.category)) := by
  have h := tickRentals_spec now d.rentals 0
  unfold check_rental_end_times
  rw [h]
  exact ⟨rfl, rfl, rfl⟩

/-- C6: a rental whose `notified` flag is true is never renotified and never
modified by any later tick, at any instant and over any run of ticks. -/
theorem claim_C6_notified_idempotent (d : Data) (j : Nat) (r : Rental)
    (hr : d.rentals.get? j = some r) (hn : r.notified = true) :
    (∀ now, (check_rental_end_times d now).1.rentals.get? j = some r ∧
        ∀ c, (j, c) ∉ (check_rental_end_times d now).2) ∧
    ∀ nows, (runTicks d nows).rentals.get? j = some r :=
  ⟨fun now => tick_preserves_notified d now j r hr hn,
   runTicks_preserves_notified d j r hr hn⟩

/-- Concrete instance of C6: the notified rental of `fixC` survives a tick
unchanged, receives no notification, and persists across a run of ticks. -/
theorem claim_C6_notified_idempotent_witness :
    (check_rental_end_times fixC 0).1.rentals.get? 0
        = some ⟨"Cam", 5, 2, 3, "10:00-01.01.24", "11:00-01.01.24", true⟩ ∧
    ((0, "Cam") ∉ (check_rental_end_times fixC 757382400).2) ∧
    (runTicks fixC [0, 757382400]).rentals.get? 0
        = some ⟨"Cam", 5, 2, 3, "10:00-01.01.24", "11:00-01.01.24", true⟩ := by
  have h := claim_C6_notified_idempotent fixC 0
    ⟨"Cam", 5, 2, 3, "10:00-01.01.24", "11:00-01.01.24", true⟩ rfl rfl
  exact ⟨(h.1 0).1, (h.1 757382400).2 "Cam", h.2 [0, 757382400]⟩

/-- Concrete instance of C7: end equal to start is rejected, store intact. -/
theorem claim_C7_order_rejected_witness :
    add_rental emptyData "C" 1 1 "14:06-11.07.25" "14:06-11.07.25"
      = .error .order ∧
    applyOp emptyData (.addRental "C" 1 1 "14:06-11.07.25" "14:06-11.07.25")
      = emptyData :=
  claim_C7_order_rejected emptyData "C" 1 1 "14:06-11.07.25" "14:06-11.07.25"
    (by decide) (by decide) 805557960 805557960 (by decide) (by decide)
    (Nat.le_refl _)

end TelegramBot
